import Mathlib

set_option maxRecDepth 8192

/-!
Shallow embedding of `src/test-harness/mistk_test_harness/evaluator.py`
(the function `perform_assessment`), the evaluation pipeline of the mistk
test harness.  Tables ingested from CSV are lists of `Row`s whose fields are
the raw strings of the file (absent columns are `none`, modelling the NaN
padding of lines 69-70 and 93-94).  The pieces of the Python function are
modelled as follows:

* reconciliation (lines 96-101): `reconcileTruth`, `sortByRowid`;
* the multilabel / multiclass matrix builder (lines 103-127):
  `mlbClasses` (the `MultiLabelBinarizer` vocabulary: sorted set union of
  all label tokens it was fitted on), `indicatorRow` (`transform`), and
  `buildConfMatrix` (the confidence-matrix loop; `list.index` is
  `firstIndex`, a failed lookup models the `ValueError` raise and a missing
  confidence token models the `IndexError` raise);
* argument binding (lines 196-210): `buildArgs` over `dictInsert`
  (Python dict assignment: overwrite in place, append otherwise);
  `defaultArgsAfter` records what `metric.default_args` refers to after
  binding, since `args = metric.default_args or axx` aliases the very dict
  stored in the descriptor whenever it is non-empty;
* the metric loop (lines 179-246): `processMetric` / `runFrom` /
  `runMetrics`.  `Env.resolveModule` returning `none` models
  `importlib.import_module` raising `ImportError`; that raise is not inside
  any `try`, so it is propagated as `Except.error` (note that the
  `if module: ... else: continue` branch of lines 183-187 is dead code in
  the source: a successfully imported module object is always truthy);
* result normalization (lines 218-242): `normalizeResult` over the
  variant type `EvalResult` (`ndarray` / numpy scalar / tuple-or-list /
  other); numeric payloads are `Int`, which the claims never interpret;
* the format gate (lines 44-47): `formatSupported`.  The Python test is
  `eval_input_format not in "predictions"`, i.e. a *substring* test, which
  `hasSeg` models exactly;
* the top-level wiring: `performAssessment`; `Except.ok d` means the run
  wrote the JSON report of `d` (lines 248-252), `Except.error` means an
  exception escaped `perform_assessment` and no report was written.
-/

namespace MistkEval

/-- A row of an ingested CSV table.  All fields are the raw strings read
from the file; a column absent from the file is `none` for every row
(the `np.nan` padding of the source).  `rowid` is the first CSV field. -/
structure Row where
  rowid : String
  labels : Option String
  confidence : Option String
  bounds : Option String
  deriving DecidableEq, Repr

/-- Line 97: `truth_df.loc[truth_df[rowid].isin(results_df[rowid])]` —
keep exactly the ground-truth rows whose rowid (raw string comparison)
occurs among the prediction rowids. -/
def reconcileTruth (truth results : List Row) : List Row :=
  truth.filter (fun t => results.any (fun r => r.rowid == t.rowid))

/-- Lexicographic order on character sequences by code point, the order
Python and pandas use to compare and sort strings. -/
def lexLe : List Char → List Char → Bool
  | [], _ => true
  | _ :: _, [] => false
  | a :: as, b :: bs =>
    if a.toNat < b.toNat then true
    else if b.toNat < a.toNat then false
    else lexLe as bs

/-- String comparison key of `sort_values`: code-point lexicographic. -/
def strLe (a b : String) : Bool := lexLe a.toList b.toList

/-- The sorting relation on strings as a proposition. -/
def strLeP (a b : String) : Prop := strLe a b = true

instance : DecidableRel strLeP := fun _ _ => instDecidableEqBool _ _

/-- The sorting relation of `sort_values(by=rowid)`. -/
def rowidLe (a b : Row) : Prop := strLe a.rowid b.rowid = true

instance : DecidableRel rowidLe := fun _ _ => instDecidableEqBool _ _

/-- Lines 100-101: `df.sort_values(by=rowid)` — sort rows ascending by the
raw rowid string. -/
def sortByRowid (rows : List Row) : List Row :=
  rows.insertionSort rowidLe

/-- ASCII whitespace as Python `str.split()` treats it: the blank
(code 32) and the control characters 9 to 13 (tab, LF, VT, FF, CR). -/
def isPySpace (c : Char) : Bool :=
  c.toNat = 32 || (9 ≤ c.toNat && c.toNat ≤ 13)

/-- Helper of `splitTokens`: walk the characters, cutting at separators. -/
def splitTokensAux (sep : Char → Bool) : List Char → List Char → List String
  | [], acc => [String.mk acc.reverse]
  | c :: cs, acc =>
    if sep c then String.mk acc.reverse :: splitTokensAux sep cs []
    else splitTokensAux sep cs (c :: acc)

/-- Python `str.split()` with no argument: tokens separated by runs of
whitespace, empty tokens discarded. -/
def splitTokens (s : String) : List String :=
  (splitTokensAux isPySpace s.toList []).filter (fun t => t ≠ "")

/-- The fitted vocabulary `label_mlb.classes_` of
`MultiLabelBinarizer.fit` (line 112): the sorted set of every label token
occurring in the rows the binarizer was fitted on.  Line 112 hands the
fit `np.append(parsed_truth_labels, parsed_results_labels, axis=0)`,
which requires the two rectangular token-row lists to have one common
row width and raises `ValueError` before any vocabulary exists
otherwise; this definition models the vocabulary of a fit that ran, so
statements built on it speak about runs whose appended rows are
shape-compatible (the concrete inputs used below all are). -/
def mlbClasses (rows : List (List String)) : List String :=
  (rows.flatten.dedup).insertionSort strLeP

/-- One row of `label_mlb.transform` (lines 113-114): the indicator of the
token set of the row, columns in vocabulary order. -/
def indicatorRow (classes : List String) (toks : List String) : List Nat :=
  classes.map (fun c => if c ∈ toks then 1 else 0)

/-- An entry of the confidence matrix: `0` from `np.zeros`, or
`np.float64(tok)` for a confidence token `tok` (the numeric parse is kept
uninterpreted; the claims only concern placement). -/
inductive CVal where
  | zero : CVal
  | num : String → CVal
  deriving DecidableEq, Repr

/-- An exception raised while building the confidence matrix:
`labelNotFound tok` is the `ValueError` of `label_classes.index(col)`
(line 125) when `tok` is not in the vocabulary; `confMissing tok` is the
`IndexError` of `parsed_confidence[row_index][col_index]` (line 126) when
the row has fewer confidence tokens than label tokens; `confRowMissing`
is the `IndexError` when a label row has no confidence row at all. -/
inductive BuildErr where
  | labelNotFound : String → BuildErr
  | confMissing : String → BuildErr
  | confRowMissing : BuildErr
  deriving DecidableEq, Repr

/-- Whether a build exception came from the vocabulary-lookup branch. -/
def BuildErr.isLabelNotFound : BuildErr → Bool
  | .labelNotFound _ => true
  | _ => false

/-- Python `list.index` as a total function: the index of the first
occurrence, `none` when absent (where the source raises `ValueError`). -/
def firstIndex (l : List String) (a : String) : Option Nat :=
  match l with
  | [] => none
  | b :: t => if b == a then some 0 else (firstIndex t a).map (· + 1)

/-- The inner loop of lines 124-126: walk the label tokens of one row in
lockstep with its confidence tokens, writing each parsed confidence token
into the vocabulary column of its label token (`row.set`); the
accumulator starts as the `np.zeros` row. -/
def fillConfRow (classes : List String) :
    List String → List String → List CVal → Except BuildErr (List CVal)
  | [], _, row => .ok row
  | tok :: rest, confs, row =>
    match firstIndex classes tok with
    | none => .error (.labelNotFound tok)
    | some pos =>
      match confs with
      | [] => .error (.confMissing tok)
      | c :: cs => fillConfRow classes rest cs (row.set pos (.num c))

/-- Lines 123-126 for one row: start from `np.zeros` over the vocabulary
columns and distribute the confidence tokens. -/
def buildConfRow (classes toks confs : List String) : Except BuildErr (List CVal) :=
  fillConfRow classes toks confs (List.replicate classes.length CVal.zero)

/-- Lines 120-127: the whole confidence matrix, one row per prediction
label row, confidence rows consumed in lockstep (`parsed_confidence[row_index]`). -/
def buildConfMatrix (classes : List String) :
    List (List String) → List (List String) → Except BuildErr (List (List CVal))
  | [], _ => .ok []
  | _ :: _, [] => .error .confRowMissing
  | toks :: trest, confs :: crest =>
    match buildConfRow classes toks confs with
    | .error e => .error e
    | .ok r =>
      match buildConfMatrix classes trest crest with
      | .error e => .error e
      | .ok rs => .ok (r :: rs)

/-- A value bound into the keyword-argument dict of a metric call.
Distinct constructors keep the distinct runtime shapes of the source
apart: a configured default argument (a JSON scalar), the label-indicator
matrices, the multilabel confidence matrix, a raw pass-through column
(`.values`), tokenized rows, and regression numeric rows. -/
inductive Value where
  | lit : String → Value
  | natMatrix : List (List Nat) → Value
  | confMatrix : List (List CVal) → Value
  | col : List (Option String) → Value
  | tokenRows : List (List String) → Value
  | numRows : List (List CVal) → Value
  deriving DecidableEq, Repr

/-- The `data_parameters` record of a Metric Descriptor: each populated
field names the keyword argument that receives the corresponding matrix. -/
structure DataParameters where
  truth_labels : Option String
  truth_bounds : Option String
  prediction_labels : Option String
  prediction_scores : Option String
  prediction_bounds : Option String
  deriving DecidableEq, Repr

/-- A Metric Descriptor as deserialized from `metrics.json`. -/
structure Metric where
  package : String
  method : String
  default_args : List (String × Value)
  data_parameters : DataParameters
  deriving DecidableEq, Repr

/-- The catalog key of a descriptor (line 171): `package + "." + method`. -/
def catalogKey (m : Metric) : String :=
  m.package ++ "." ++ m.method

/-- Python truthiness of an optional string field (`if slot:`): present
and non-empty. -/
def truthy : Option String → Bool
  | none => false
  | some s => s ≠ ""

/-- `Series.hasnans` for a column: some row misses a value. -/
def hasNans (col : List (Option String)) : Bool :=
  col.any (fun v => v.isNone)

/-- Python dict assignment `d[k] = v`: overwrite in place when the key is
present, append otherwise (insertion order preserved; dict keys are
unique, so replacing the first occurrence is replacement proper). -/
def dictInsert {α : Type} : List (String × α) → String → α → List (String × α)
  | [], k, v => [(k, v)]
  | p :: d, k, v => if p.1 == k then (k, v) :: d else p :: dictInsert d k v

/-- The data handed to the dispatcher: evaluation type, fitted vocabulary
(multilabel branch only), the matrix values bound at lines 196-210, and
the raw columns whose `hasnans` gates the optional bindings. -/
structure RunData where
  evalType : String
  labelClasses : List String
  truthLabelsV : Value
  resultsLabelsV : Value
  confV : Value
  truthBounds : List (Option String)
  resultsBounds : List (Option String)
  resultsConfidence : List (Option String)

/-- One conditional binding of lines 197-210: when the slot names a
keyword argument (truthy) and its gate holds, assign into the dict. -/
def bindSlot (args : List (String × Value)) (slot : Option String) (gate : Bool)
    (v : Value) : List (String × Value) :=
  match slot with
  | some name => if (name != "") && gate then dictInsert args name v else args
  | none => args

/-- Lines 196-210: start from `metric.default_args or axx` and bind each
populated data-parameter slot whose gate holds.  The `confidence in
results_df` conjunct of line 206 is always true after column padding, so
only `hasnans` gates the scores binding. -/
def buildArgs (metric : Metric) (ctx : RunData) : List (String × Value) :=
  let args0 := metric.default_args
  let args1 := bindSlot args0 metric.data_parameters.truth_labels true ctx.truthLabelsV
  let args2 := bindSlot args1 metric.data_parameters.truth_bounds
      (!hasNans ctx.truthBounds) (Value.col ctx.truthBounds)
  let args3 := bindSlot args2 metric.data_parameters.prediction_labels true ctx.resultsLabelsV
  let args4 := bindSlot args3 metric.data_parameters.prediction_scores
      (!hasNans ctx.resultsConfidence) ctx.confV
  bindSlot args4 metric.data_parameters.prediction_bounds
      (!hasNans ctx.resultsBounds) (Value.col ctx.resultsBounds)

/-- What the descriptor field `default_args` holds after the bindings of
lines 196-210 ran for this metric.  `args = metric.default_args or axx`
(line 196) makes `args` an alias of the descriptor dict itself whenever
that dict is non-empty (only a falsy value is replaced by the fresh empty
dict), so every subsequent `args[name] = matrix` mutates the descriptor. -/
def defaultArgsAfter (metric : Metric) (ctx : RunData) : List (String × Value) :=
  if metric.default_args.isEmpty then metric.default_args
  else buildArgs metric ctx

/-- The descriptor with its `prediction_scores` slot cleared; used to
state that a run binds no confidence matrix. -/
def scrubScores (metric : Metric) : Metric :=
  { metric with data_parameters := { metric.data_parameters with prediction_scores := none } }

/-- A raw value returned by one metric call, as classified at lines
218-242: a numpy array, a numpy scalar, a native tuple or list, or
anything else. -/
inductive EvalResult where
  | ndarray : List Int → EvalResult
  | npgeneric : Int → EvalResult
  | pylist : List Int → EvalResult
  | other : Int → EvalResult
  deriving DecidableEq, Repr

/-- A JSON-safe normalized metric value. -/
inductive JsonVal where
  | num : Int → JsonVal
  | arr : List Int → JsonVal
  | dict : List (String × Int) → JsonVal
  | raw : Int → JsonVal
  deriving DecidableEq, Repr

/-- Insert a list of pairs into a dict one by one (a Python loop of
`d[k] = v` statements). -/
def insertAll {α : Type} (d : List (String × α)) (ps : List (String × α)) :
    List (String × α) :=
  ps.foldl (fun d p => dictInsert d p.1 p.2) d

/-- Lines 225-227: `for index, label in enumerate(label_classes):
d[str(label)] = xs[index]` — build the label-keyed mapping. -/
def buildLabelDict (classes : List String) (xs : List Int) : List (String × Int) :=
  insertAll [] (classes.zip xs)

/-- Lines 218-242: normalize one raw metric result.  For a multilabel or
multiclass run, a numpy array whose length equals the vocabulary size is
re-keyed by the vocabulary labels; any other numpy array, and every tuple
or list, becomes a plain list; a numpy scalar becomes a plain number;
anything else passes through. -/
def normalizeResult (evalType : String) (labelClasses : List String) :
    EvalResult → JsonVal
  | .ndarray xs =>
    if evalType = "MultilabelClassification" ∨ evalType = "MulticlassClassification" then
      if xs.length = labelClasses.length then
        JsonVal.dict (buildLabelDict labelClasses xs)
      else JsonVal.arr xs
    else JsonVal.arr xs
  | .npgeneric v => JsonVal.num v
  | .pylist xs => JsonVal.arr xs
  | .other v => JsonVal.raw v

/-- A loaded Python module: the attribute names it has (`hasattr`) and the
behaviour of calling one of its attributes with keyword arguments
(`Except.error` models the call raising). -/
structure Module where
  methods : List String
  call : String → List (String × Value) → Except Unit EvalResult

/-- The import environment: `resolveModule p = none` models
`importlib.import_module(p)` raising `ImportError`. -/
structure Env where
  resolveModule : String → Option Module

/-- The mutable state of the metric loop: the per-run module cache and the
result dict. -/
structure LoopState where
  modulesCache : List (String × Module)
  evalDict : List (String × JsonVal)

/-- Lines 179-246 for one metric: resolve the module (cache first; a
failed import is an uncaught raise, hence `Except.error`), skip with a
warning when the method is absent, bind the arguments, call, catch any
exception of the call itself, and on success store the normalized result
under `metric.method`. -/
def processMetric (env : Env) (ctx : RunData) (st : LoopState) (metric : Metric) :
    Except String LoopState :=
  match List.lookup metric.package st.modulesCache with
  | some mod =>
    if mod.methods.contains metric.method then
      match mod.call metric.method (buildArgs metric ctx) with
      | .error _ => .ok ⟨st.modulesCache, st.evalDict⟩
      | .ok r =>
        .ok ⟨st.modulesCache,
             dictInsert st.evalDict metric.method
               (normalizeResult ctx.evalType ctx.labelClasses r)⟩
    else .ok ⟨st.modulesCache, st.evalDict⟩
  | none =>
    match env.resolveModule metric.package with
    | none => .error metric.package
    | some mod =>
      let cache := dictInsert st.modulesCache metric.package mod
      if mod.methods.contains metric.method then
        match mod.call metric.method (buildArgs metric ctx) with
        | .error _ => .ok ⟨cache, st.evalDict⟩
        | .ok r =>
          .ok ⟨cache,
               dictInsert st.evalDict metric.method
                 (normalizeResult ctx.evalType ctx.labelClasses r)⟩
      else .ok ⟨cache, st.evalDict⟩

/-- The metric loop from a given state: stop with `Except.error` as soon
as an uncaught exception escapes one iteration. -/
def runFrom (env : Env) (ctx : RunData) : LoopState → List Metric → Except String LoopState
  | st, [] => .ok st
  | st, m :: ms =>
    match processMetric env ctx st m with
    | .error e => .error e
    | .ok st' => runFrom env ctx st' ms

/-- Lines 179-252: run every selected metric starting from an empty cache
and an empty result dict; `Except.ok d` means the JSON report of `d` was
written, `Except.error` means the run aborted with no report. -/
def runMetrics (env : Env) (ctx : RunData) (metrics : List Metric) :
    Except String (List (String × JsonVal)) :=
  match runFrom env ctx ⟨[], []⟩ metrics with
  | .ok st => .ok st.evalDict
  | .error e => .error e

/-- Whether the run reached line 251 and wrote the report file. -/
def reportWritten (r : Except String (List (String × JsonVal))) : Bool :=
  match r with
  | .ok _ => true
  | .error _ => false

/-- The fate of one metric in a run where its package imports: `some r`
when the method exists and the call returns `r`, `none` when the method
is absent or the call raises (both logged-and-skipped). -/
def metricOutcome (env : Env) (ctx : RunData) (metric : Metric) : Option EvalResult :=
  match env.resolveModule metric.package with
  | none => none
  | some mod =>
    if mod.methods.contains metric.method then
      match mod.call metric.method (buildArgs metric ctx) with
      | .ok r => some r
      | .error _ => none
    else none

/-- Fold one metric outcome into the result dict. -/
def applyOutcome (ctx : RunData) (d : List (String × JsonVal)) (metric : Metric)
    (o : Option EvalResult) : List (String × JsonVal) :=
  match o with
  | some r => dictInsert d metric.method (normalizeResult ctx.evalType ctx.labelClasses r)
  | none => d

/-- The result dict of a run, computed outcome by outcome. -/
def runSpecDict (env : Env) (ctx : RunData) (metrics : List Metric)
    (d : List (String × JsonVal)) : List (String × JsonVal) :=
  metrics.foldl (fun d m => applyOutcome ctx d m (metricOutcome env ctx m)) d

/-- Every cached module is what the environment imports for its key. -/
def cacheConsistent (env : Env) (cache : List (String × Module)) : Prop :=
  ∀ p mod, List.lookup p cache = some mod → env.resolveModule p = some mod

/-- Whether `needle` is a leading segment of `hay`. -/
def leadMatch : List Char → List Char → Bool
  | [], _ => true
  | _ :: _, [] => false
  | a :: as, b :: bs => (a == b) && leadMatch as bs

/-- Whether `needle` occurs contiguously inside `hay` (Python substring
containment `needle in hay`). -/
def hasSeg (needle : List Char) : List Char → Bool
  | [] => leadMatch needle []
  | b :: bs => leadMatch needle (b :: bs) || hasSeg needle bs

/-- Line 44: the format check `eval_input_format not in "predictions"`
does not raise exactly when the given format is a substring of the word
predictions. -/
def formatSupported (fmt : String) : Bool :=
  hasSeg fmt.toList "predictions".toList

/-- The message of the exception raised at line 47. -/
def formatErrorMsg (fmt : String) : String :=
  "EvaluationInputFormat " ++ fmt ++ " is not supported by this Metric Evaluator"

/-- The label token rows of a table (`df[labels].str.split()`); the object
dtype branch of the source, which is the one taken for any column read
from the CSV file. -/
def parsedLabelRows (rows : List Row) : List (List String) :=
  rows.map (fun r => splitTokens (r.labels.getD ""))

/-- The confidence token rows (`df[confidence].str.split()`). -/
def parsedConfRows (rows : List Row) : List (List String) :=
  rows.map (fun r => splitTokens (r.confidence.getD ""))

/-- The raw confidence column of a table. -/
def confColumn (rows : List Row) : List (Option String) :=
  rows.map Row.confidence

/-- The raw bounds column of a table. -/
def boundsColumn (rows : List Row) : List (Option String) :=
  rows.map Row.bounds

/-- Regression parsing of one token row: `np.array(item, dtype=np.float64)`
(tokens kept uninterpreted). -/
def numRow (toks : List String) : List CVal :=
  toks.map CVal.num

/-- The inputs of `perform_assessment` after ingestion of the two CSV
files. -/
structure RunInput where
  evalType : String
  evalInputFormat : String
  truth : List Row
  results : List Row

/-- Lines 103-158: the evaluation-type dispatch of the Matrix Builder on
the already reconciled and sorted tables.  In the multilabel / multiclass
branch a confidence column with any missing value leaves
`confidence_matrix` unassigned (the guard of line 116); the placeholder
`Value.confMatrix []` models that unassigned name, which the binding
guard of line 206 keeps unreachable. -/
def buildRunData (evalType : String) (truth results : List Row) :
    Except BuildErr RunData :=
  if evalType = "MultilabelClassification" ∨ evalType = "MulticlassClassification" then
    let parsedTruth := parsedLabelRows truth
    let parsedResults := parsedLabelRows results
    let classes := mlbClasses (parsedTruth ++ parsedResults)
    let truthM := parsedTruth.map (indicatorRow classes)
    let resultsM := parsedResults.map (indicatorRow classes)
    if !hasNans (confColumn results) then
      match buildConfMatrix classes parsedResults (parsedConfRows results) with
      | .error e => .error e
      | .ok cm =>
        .ok { evalType := evalType, labelClasses := classes,
              truthLabelsV := Value.natMatrix truthM,
              resultsLabelsV := Value.natMatrix resultsM,
              confV := Value.confMatrix cm,
              truthBounds := boundsColumn truth,
              resultsBounds := boundsColumn results,
              resultsConfidence := confColumn results }
    else
      .ok { evalType := evalType, labelClasses := classes,
            truthLabelsV := Value.natMatrix truthM,
            resultsLabelsV := Value.natMatrix resultsM,
            confV := Value.confMatrix [],
            truthBounds := boundsColumn truth,
            resultsBounds := boundsColumn results,
            resultsConfidence := confColumn results }
  else if evalType = "Regression" then
    .ok { evalType := evalType, labelClasses := [],
          truthLabelsV := Value.numRows ((parsedLabelRows truth).map numRow),
          resultsLabelsV := Value.numRows ((parsedLabelRows results).map numRow),
          confV := Value.numRows ((parsedConfRows results).map numRow),
          truthBounds := boundsColumn truth,
          resultsBounds := boundsColumn results,
          resultsConfidence := confColumn results }
  else
    .ok { evalType := evalType, labelClasses := [],
          truthLabelsV := Value.tokenRows (parsedLabelRows truth),
          resultsLabelsV := Value.tokenRows (parsedLabelRows results),
          confV := Value.tokenRows (parsedConfRows results),
          truthBounds := boundsColumn truth,
          resultsBounds := boundsColumn results,
          resultsConfidence := confColumn results }

/-- The whole of `perform_assessment`: format gate first (before any file
is read), then reconciliation and sorting, matrix building (whose raises
are uncaught), then the metric loop; `Except.ok d` means the report of
`d` was written to the output directory. -/
def performAssessment (env : Env) (inp : RunInput) (metrics : List Metric) :
    Except String (List (String × JsonVal)) :=
  if !formatSupported inp.evalInputFormat then
    .error (formatErrorMsg inp.evalInputFormat)
  else
    let truth := sortByRowid (reconcileTruth inp.truth inp.results)
    let results := sortByRowid inp.results
    match buildRunData inp.evalType truth results with
    | .error _ => .error "matrix build exception"
    | .ok ctx => runMetrics env ctx metrics

/-! Concrete fixtures used to settle the claims on explicit inputs. -/

/-- A descriptor with every data-parameter slot empty. -/
def dpEmpty : DataParameters :=
  { truth_labels := none, truth_bounds := none, prediction_labels := none,
    prediction_scores := none, prediction_bounds := none }

/-- A minimal run context (binary branch, empty tables). -/
def ctx0 : RunData :=
  { evalType := "BinaryClassification", labelClasses := [],
    truthLabelsV := .tokenRows [], resultsLabelsV := .tokenRows [],
    confV := .tokenRows [], truthBounds := [], resultsBounds := [],
    resultsConfidence := [] }

/-- A module exposing one metric function that returns the scalar one. -/
def goodModule : Module :=
  { methods := ["accuracy_score"], call := fun _ _ => .ok (.npgeneric 1) }

/-- An environment in which only the package of `goodModule` imports. -/
def envSkl : Env :=
  { resolveModule := fun p => if p == "sklearn.metrics" then some goodModule else none }

/-- A metric whose package imports and whose call succeeds. -/
def mGood : Metric :=
  { package := "sklearn.metrics", method := "accuracy_score", default_args := [],
    data_parameters := dpEmpty }

/-- A metric whose package does not resolve to a loadable module. -/
def mBadPkg : Metric :=
  { package := "missing_pkg", method := "accuracy_score", default_args := [],
    data_parameters := dpEmpty }

/-- A module whose metric function raises on every invocation. -/
def raisingModule : Module :=
  { methods := ["f_raise"], call := fun _ _ => .error () }

/-- An environment with one loadable package holding a raising metric. -/
def envC4 : Env :=
  { resolveModule := fun p => if p == "ok_pkg" then some raisingModule else none }

/-- A metric that resolves but whose invocation raises. -/
def mRaise : Metric :=
  { package := "ok_pkg", method := "f_raise", default_args := [],
    data_parameters := dpEmpty }

/-- A metric whose package is not importable. -/
def mGone : Metric :=
  { package := "gone_pkg", method := "g", default_args := [],
    data_parameters := dpEmpty }

/-- A descriptor with non-empty default arguments and two populated data
parameters, as a catalog entry of a classification metric would have. -/
def m8 : Metric :=
  { package := "sklearn.metrics", method := "f1_score",
    default_args := [("average", Value.lit "macro")],
    data_parameters :=
      { truth_labels := some "y_true", truth_bounds := none,
        prediction_labels := some "y_pred", prediction_scores := none,
        prediction_bounds := none } }

/-- A multiclass run context with fully populated confidence. -/
def ctx8 : RunData :=
  { evalType := "MulticlassClassification", labelClasses := ["a"],
    truthLabelsV := .natMatrix [[1]], resultsLabelsV := .natMatrix [[1]],
    confV := .confMatrix [[.num "0.9"]], truthBounds := [], resultsBounds := [],
    resultsConfidence := [some "0.9"] }

/-- A metric declaring a `prediction_scores` data parameter. -/
def m5 : Metric :=
  { package := "sklearn.metrics", method := "roc_auc_score", default_args := [],
    data_parameters :=
      { truth_labels := some "y_true", truth_bounds := none,
        prediction_labels := none, prediction_scores := some "y_score",
        prediction_bounds := none } }

/-- A run context whose prediction confidence column misses one value. -/
def ctx5 : RunData :=
  { evalType := "MulticlassClassification", labelClasses := ["a"],
    truthLabelsV := .natMatrix [[1], [1]], resultsLabelsV := .natMatrix [[1], [1]],
    confV := .confMatrix [], truthBounds := [], resultsBounds := [],
    resultsConfidence := [some "0.9", none] }

/-- A module raising from its only method, for the partial-failure witness. -/
def modRaiseW : Module :=
  { methods := ["f_bad"], call := fun _ _ => .error () }

/-- A module succeeding with the scalar five, for the partial-failure witness. -/
def modOkW : Module :=
  { methods := ["f_good"], call := fun _ _ => .ok (.npgeneric 5) }

/-- An environment importing both witness packages. -/
def envW : Env :=
  { resolveModule := fun p =>
      if p == "pkg_bad" then some modRaiseW
      else if p == "pkg_good" then some modOkW else none }

/-- The failing metric of the partial-failure witness. -/
def mfW : Metric :=
  { package := "pkg_bad", method := "f_bad", default_args := [],
    data_parameters := dpEmpty }

/-- The succeeding metric of the partial-failure witness. -/
def mgW : Metric :=
  { package := "pkg_good", method := "f_good", default_args := [],
    data_parameters := dpEmpty }

/-- A module with method `score` returning the scalar one. -/
def modX : Module :=
  { methods := ["score"], call := fun _ _ => .ok (.npgeneric 1) }

/-- A module with method `score` returning the scalar two. -/
def modY : Module :=
  { methods := ["score"], call := fun _ _ => .ok (.npgeneric 2) }

/-- An environment importing the two colliding packages. -/
def envXY : Env :=
  { resolveModule := fun p =>
      if p == "pkgX" then some modX
      else if p == "pkgY" then some modY else none }

/-- First metric of the method-name collision: `pkgX.score`. -/
def mX : Metric :=
  { package := "pkgX", method := "score", default_args := [],
    data_parameters := dpEmpty }

/-- Second metric of the method-name collision: `pkgY.score`. -/
def mY : Metric :=
  { package := "pkgY", method := "score", default_args := [],
    data_parameters := dpEmpty }

/-! General lemmas about the embedded operations. -/

theorem lexLe_trans : ∀ x y z : List Char,
    lexLe x y = true → lexLe y z = true → lexLe x z = true
  | [], _, _, _, _ => rfl
  | _ :: _, [], _, h1, _ => by simp [lexLe] at h1
  | _ :: _, _ :: _, [], _, h2 => by simp [lexLe] at h2
  | a :: as, b :: bs, c :: cs, h1, h2 => by
    have ih := lexLe_trans as bs cs
    revert h1 h2
    unfold lexLe
    split_ifs <;> intro h1 h2 <;> first
      | rfl
      | exact h1.elim
      | exact h2.elim
      | omega
      | exact ih h1 h2

theorem lexLe_total : ∀ x y : List Char, lexLe x y = true ∨ lexLe y x = true
  | [], _ => Or.inl rfl
  | _ :: _, [] => Or.inr rfl
  | a :: as, b :: bs => by
    have ih := lexLe_total as bs
    unfold lexLe
    rcases Nat.lt_trichotomy a.toNat b.toNat with h | h | h
    · left; simp [h]
    · have h1 : ¬ a.toNat < b.toNat := by omega
      have h2 : ¬ b.toNat < a.toNat := by omega
      simpa [h1, h2] using ih
    · right; simp [h]

/-- C3: for every prediction table P and ground-truth table G, the
reconciled ground-truth table contains exactly the rows of G whose rowid
(raw string comparison, no coercion) occurs among the rowids of P, and
after reconciliation both the ground-truth table and the full prediction
table are permutations of their pre-sort contents sorted ascending by
rowid. -/
theorem c3_reconciliation (truth results : List Row) :
    (∀ t, t ∈ sortByRowid (reconcileTruth truth results) ↔
        t ∈ truth ∧ ∃ r ∈ results, r.rowid = t.rowid) ∧
    (sortByRowid (reconcileTruth truth results)).Perm (reconcileTruth truth results) ∧
    List.Sorted rowidLe (sortByRowid (reconcileTruth truth results)) ∧
    (sortByRowid results).Perm results ∧
    List.Sorted rowidLe (sortByRowid results) := by
  haveI : IsTrans Row rowidLe := ⟨fun a b c h1 h2 => lexLe_trans _ _ _ h1 h2⟩
  haveI : IsTotal Row rowidLe := ⟨fun a b => lexLe_total _ _⟩
  refine ⟨?_, List.perm_insertionSort _ _, List.sorted_insertionSort _ _,
    List.perm_insertionSort _ _, List.sorted_insertionSort _ _⟩
  intro t
  unfold sortByRowid
  rw [(List.perm_insertionSort rowidLe (reconcileTruth truth results)).mem_iff]
  unfold reconcileTruth
  rw [List.mem_filter, List.any_eq_true]
  constructor
  · rintro ⟨htr, r, hr, hbeq⟩
    exact ⟨htr, r, hr, by simpa using hbeq⟩
  · rintro ⟨htr, r, hr, heq⟩
    exact ⟨htr, r, hr, by simpa using heq⟩

theorem firstIndex_some (l : List String) (a : String) :
    ∀ i, firstIndex l a = some i → i < l.length ∧ l.getD i "" = a := by
  induction l with
  | nil => intro i h; simp [firstIndex] at h
  | cons b t ih =>
    intro i h
    unfold firstIndex at h
    by_cases hb : b == a
    · rw [if_pos hb] at h
      cases h
      exact ⟨Nat.succ_pos _, by simpa using beq_iff_eq.mp hb⟩
    · rw [if_neg hb] at h
      cases hfi : firstIndex t a with
      | none => rw [hfi] at h; cases h
      | some j =>
        rw [hfi] at h
        cases h
        rcases ih j hfi with ⟨hj, hg⟩
        exact ⟨Nat.succ_lt_succ hj, by simpa [List.getD_cons_succ] using hg⟩

theorem firstIndex_mem (l : List String) (a : String) (h : a ∈ l) :
    ∃ i, firstIndex l a = some i := by
  induction l with
  | nil => cases h
  | cons b t ih =>
    unfold firstIndex
    by_cases hb : b == a
    · exact ⟨0, by rw [if_pos hb]⟩
    · rcases List.mem_cons.mp h with rfl | ht
      · simp at hb
      · rcases ih ht with ⟨j, hj⟩
        exact ⟨j + 1, by rw [if_neg hb, hj]; rfl⟩

theorem getD_set_self {l : List CVal} {i : Nat} (h : i < l.length) (v : CVal) :
    (l.set i v).getD i CVal.zero = v := by
  rw [List.getD_eq_getElem?_getD, List.getElem?_set_self h]
  rfl

theorem getD_set_ne {l : List CVal} {i j : Nat} (h : i ≠ j) (v : CVal) :
    (l.set i v).getD j CVal.zero = l.getD j CVal.zero := by
  rw [List.getD_eq_getElem?_getD, List.getElem?_set_ne h, ← List.getD_eq_getElem?_getD]

theorem getD_replicate_zero : ∀ (n j : Nat),
    (List.replicate n CVal.zero).getD j CVal.zero = CVal.zero
  | 0, _ => rfl
  | _ + 1, 0 => rfl
  | n + 1, j + 1 => by
    rw [List.replicate_succ, List.getD_cons_succ]
    exact getD_replicate_zero n j

theorem fillConfRow_length (classes : List String) :
    ∀ (toks confs : List String) (row out : List CVal),
      fillConfRow classes toks confs row = .ok out → out.length = row.length
  | [], _, _, _, h => by
    unfold fillConfRow at h
    cases h; rfl
  | tok :: rest, confs, row, out, h => by
    unfold fillConfRow at h
    cases hfi : firstIndex classes tok with
    | none => rw [hfi] at h; cases h
    | some pos =>
      rw [hfi] at h
      cases confs with
      | nil => cases h
      | cons c cs =>
        have := fillConfRow_length classes rest cs (row.set pos (.num c)) out h
        simpa [List.length_set] using this

theorem fillConfRow_preserve (classes : List String) :
    ∀ (toks confs : List String) (row out : List CVal) (j : Nat),
      fillConfRow classes toks confs row = .ok out →
      (∀ t ∈ toks, firstIndex classes t ≠ some j) →
      out.getD j CVal.zero = row.getD j CVal.zero
  | [], _, _, _, _, h, _ => by
    unfold fillConfRow at h
    cases h; rfl
  | tok :: rest, confs, row, out, j, h, hj => by
    unfold fillConfRow at h
    cases hfi : firstIndex classes tok with
    | none => rw [hfi] at h; cases h
    | some pos =>
      rw [hfi] at h
      cases confs with
      | nil => cases h
      | cons c cs =>
        have hne : pos ≠ j := fun he => hj tok (List.mem_cons_self _ _) (he ▸ hfi)
        have ih := fillConfRow_preserve classes rest cs (row.set pos (.num c)) out j h
          (fun t ht => hj t (List.mem_cons_of_mem _ ht))
        rw [ih, getD_set_ne hne]

theorem fillConfRow_entry (classes : List String) :
    ∀ (toks confs : List String) (row out : List CVal) (k : Nat),
      fillConfRow classes toks confs row = .ok out →
      toks.Nodup →
      row.length = classes.length →
      k < toks.length →
      out.getD ((firstIndex classes (toks.getD k "")).getD 0) CVal.zero
        = CVal.num (confs.getD k "")
  | [], _, _, _, k, _, _, _, hk => absurd hk (by simp)
  | tok :: rest, confs, row, out, k, h, hnd, hlen, hk => by
    unfold fillConfRow at h
    cases hfi : firstIndex classes tok with
    | none => rw [hfi] at h; cases h
    | some pos =>
      rw [hfi] at h
      cases confs with
      | nil => cases h
      | cons c cs =>
        cases k with
        | zero =>
          simp only [List.getD_cons_zero, hfi, Option.getD_some]
          have hpres : out.getD pos CVal.zero
              = (row.set pos (.num c)).getD pos CVal.zero := by
            apply fillConfRow_preserve classes rest cs _ out pos h
            intro t ht he
            rcases firstIndex_some classes t pos he with ⟨_, hg⟩
            rcases firstIndex_some classes tok pos hfi with ⟨_, hg2⟩
            have : t = tok := by rw [← hg, hg2]
            exact (List.nodup_cons.mp hnd).1 (this ▸ ht)
          rcases firstIndex_some classes tok pos hfi with ⟨hpos, _⟩
          rw [hpres, getD_set_self (by rw [hlen]; exact hpos) _]
        | succ k =>
          have ih := fillConfRow_entry classes rest cs (row.set pos (.num c)) out k h
            (List.nodup_cons.mp hnd).2 (by rw [List.length_set]; exact hlen)
            (Nat.lt_of_succ_lt_succ hk)
          simpa [List.getD_cons_succ] using ih

theorem buildConfRow_zero_entries (classes toks confs : List String) (out : List CVal)
    (j : Nat) (h : buildConfRow classes toks confs = .ok out)
    (hnot : classes.getD j "" ∉ toks) :
    out.getD j CVal.zero = CVal.zero := by
  have hpres := fillConfRow_preserve classes toks confs
      (List.replicate classes.length CVal.zero) out j h ?_
  · rw [hpres, getD_replicate_zero]
  · intro t ht he
    rcases firstIndex_some classes t j he with ⟨_, hg⟩
    exact hnot (hg ▸ ht)

theorem fillConfRow_err (classes : List String) :
    ∀ (toks confs : List String) (row : List CVal) (e : BuildErr),
      fillConfRow classes toks confs row = .error e →
      (∀ t ∈ toks, t ∈ classes) →
      e.isLabelNotFound = false
  | [], _, _, _, h, _ => by
    unfold fillConfRow at h
    cases h
  | tok :: rest, confs, row, e, h, hmem => by
    unfold fillConfRow at h
    cases hfi : firstIndex classes tok with
    | none =>
      rcases firstIndex_mem classes tok (hmem tok (List.mem_cons_self _ _)) with ⟨i, hi⟩
      rw [hfi] at hi; cases hi
    | some pos =>
      rw [hfi] at h
      cases confs with
      | nil => cases h; rfl
      | cons c cs =>
        exact fillConfRow_err classes rest cs (row.set pos (.num c)) e h
          (fun t ht => hmem t (List.mem_cons_of_mem _ ht))

theorem buildConfMatrix_ok (classes : List String) :
    ∀ (tokRows confRows : List (List String)) (M : List (List CVal)),
      buildConfMatrix classes tokRows confRows = .ok M →
      M.length = tokRows.length ∧
      ∀ i, i < tokRows.length →
        buildConfRow classes (tokRows.getD i []) (confRows.getD i [])
          = .ok (M.getD i [])
  | [], _, _, h => by
    unfold buildConfMatrix at h
    cases h
    exact ⟨rfl, fun i hi => absurd hi (by simp)⟩
  | _ :: _, [], _, h => by unfold buildConfMatrix at h; cases h
  | toks :: trest, confs :: crest, M, h => by
    unfold buildConfMatrix at h
    cases hr : buildConfRow classes toks confs with
    | error e => rw [hr] at h; cases h
    | ok r =>
      rw [hr] at h
      cases hm : buildConfMatrix classes trest crest with
      | error e => rw [hm] at h; cases h
      | ok rs =>
        rw [hm] at h; cases h
        rcases buildConfMatrix_ok classes trest crest rs hm with ⟨hl, hp⟩
        refine ⟨by simp [hl], ?_⟩
        intro i hi
        cases i with
        | zero => simpa using hr
        | succ i => simpa using hp i (Nat.lt_of_succ_lt_succ hi)

theorem buildConfMatrix_err (classes : List String) :
    ∀ (tokRows confRows : List (List String)) (e : BuildErr),
      buildConfMatrix classes tokRows confRows = .error e →
      (∀ row ∈ tokRows, ∀ t ∈ row, t ∈ classes) →
      e.isLabelNotFound = false
  | [], _, _, h, _ => by unfold buildConfMatrix at h; cases h
  | _ :: _, [], _, h, _ => by unfold buildConfMatrix at h; cases h; rfl
  | toks :: trest, confs :: crest, e, h, hmem => by
    unfold buildConfMatrix at h
    cases hr : buildConfRow classes toks confs with
    | error e2 =>
      rw [hr] at h; cases h
      exact fillConfRow_err classes toks confs _ e hr
        (hmem toks (List.mem_cons_self _ _))
    | ok r =>
      rw [hr] at h
      cases hm : buildConfMatrix classes trest crest with
      | error e2 =>
        rw [hm] at h; cases h
        exact buildConfMatrix_err classes trest crest e hm
          (fun row hrow => hmem row (List.mem_cons_of_mem _ hrow))
      | ok rs => rw [hm] at h; cases h

theorem mem_mlbClasses {t : String} {rows : List (List String)}
    (h : ∃ r ∈ rows, t ∈ r) : t ∈ mlbClasses rows := by
  unfold mlbClasses
  rw [(List.perm_insertionSort strLeP _).mem_iff, List.mem_dedup, List.mem_flatten]
  exact h

theorem mlbClasses_nodup (rows : List (List String)) : (mlbClasses rows).Nodup :=
  (List.perm_insertionSort strLeP _).symm.nodup (List.nodup_dedup _)

/-- C9: in the multilabel and multiclass confidence-matrix construction
over the vocabulary fitted on the union of ground-truth and prediction
label token rows, the vocabulary lookup of a prediction label token never
reaches the not-found error branch: any exception the construction raises
is a confidence-indexing error, never a failed label lookup, because the
fitted vocabulary contains every prediction label token. -/
theorem c9_label_lookup_total (truthRows resultRows confRows : List (List String))
    (e : BuildErr)
    (h : buildConfMatrix (mlbClasses (truthRows ++ resultRows)) resultRows confRows
        = .error e) :
    e.isLabelNotFound = false := by
  apply buildConfMatrix_err _ resultRows confRows e h
  intro row hrow t ht
  exact mem_mlbClasses ⟨row, List.mem_append_right _ hrow, ht⟩

theorem c9_label_lookup_witness :
    BuildErr.isLabelNotFound (BuildErr.confMissing "a") = false :=
  c9_label_lookup_total [] [["a"]] [[]] (BuildErr.confMissing "a") rfl

/-- C7 counterexample: ground-truth label tokens `a b` and prediction
label tokens `a a` (both rows width two, so line 112 appends
shape-compatible arrays and the fit really succeeds with vocabulary
`a b`), prediction confidence tokens `1 2`.  The entry in the vocabulary
column of the row's 0-th label token is the parse of `2` (the last write
of the loop wins), not the row's 0-th confidence token `1` — so the
claimed per-token alignment fails for rows with repeated label tokens. -/
theorem c7_counterexample :
    buildConfMatrix (mlbClasses ([["a", "b"]] ++ [["a", "a"]])) [["a", "a"]] [["1", "2"]]
        = .ok [[CVal.num "2", CVal.zero]] ∧
    ([[CVal.num "2", CVal.zero]].getD 0 []).getD
        ((firstIndex (mlbClasses ([["a", "b"]] ++ [["a", "a"]]))
            (([["a", "a"]].getD 0 []).getD 0 "")).getD 0) CVal.zero
      ≠ CVal.num (([["1", "2"]].getD 0 []).getD 0 "") := by
  exact ⟨rfl, by decide⟩

/-- C7 amended: for every multilabel or multiclass run with a fully
populated confidence column whose per-row label tokens are pairwise
distinct, the built confidence matrix has as many rows as the prediction
label-indicator matrix and every row has one entry per vocabulary column;
the entry in the column of the k-th label token of a row is that row's
k-th confidence token parsed as a number, and the entry of every
vocabulary label not among the row's tokens is zero. -/
theorem c7_confidence_amended (truthRows resultRows confRows : List (List String))
    (M : List (List CVal))
    (hnodup : ∀ r ∈ resultRows, r.Nodup)
    (hok : buildConfMatrix (mlbClasses (truthRows ++ resultRows)) resultRows confRows
        = .ok M) :
    M.length = (resultRows.map (indicatorRow (mlbClasses (truthRows ++ resultRows)))).length ∧
    (∀ i, i < M.length →
        (M.getD i []).length = (mlbClasses (truthRows ++ resultRows)).length) ∧
    (∀ i k, i < resultRows.length → k < (resultRows.getD i []).length →
        (M.getD i []).getD
            ((firstIndex (mlbClasses (truthRows ++ resultRows))
                ((resultRows.getD i []).getD k "")).getD 0) CVal.zero
          = CVal.num ((confRows.getD i []).getD k "")) ∧
    (∀ i j, i < resultRows.length →
        (mlbClasses (truthRows ++ resultRows)).getD j "" ∉ resultRows.getD i [] →
        (M.getD i []).getD j CVal.zero = CVal.zero) := by
  rcases buildConfMatrix_ok (mlbClasses (truthRows ++ resultRows)) resultRows confRows M
    hok with ⟨hlen, hrows⟩
  refine ⟨by simp [hlen], ?_, ?_, ?_⟩
  · intro i hi
    have hi2 : i < resultRows.length := hlen ▸ hi
    have h := hrows i hi2
    have h2 := fillConfRow_length (mlbClasses (truthRows ++ resultRows))
      (resultRows.getD i []) (confRows.getD i [])
      (List.replicate (mlbClasses (truthRows ++ resultRows)).length CVal.zero)
      (M.getD i []) h
    simpa using h2
  · intro i k hi hk
    have hmem : resultRows.getD i [] ∈ resultRows := by
      rw [List.getD_eq_getElem _ _ hi]
      exact List.getElem_mem hi
    exact fillConfRow_entry (mlbClasses (truthRows ++ resultRows))
      (resultRows.getD i []) (confRows.getD i [])
      (List.replicate (mlbClasses (truthRows ++ resultRows)).length CVal.zero)
      (M.getD i []) k (hrows i hi) (hnodup _ hmem) (by simp) hk
  · intro i j hi hnot
    exact buildConfRow_zero_entries (mlbClasses (truthRows ++ resultRows))
      (resultRows.getD i []) (confRows.getD i []) (M.getD i []) j (hrows i hi) hnot

theorem c7_confidence_witness :
    ([[CVal.num "0.7", CVal.num "0.2"]].getD 0 []).getD
        ((firstIndex (mlbClasses ([["a", "b"]] ++ [["a", "b"]]))
            (([["a", "b"]].getD 0 []).getD 1 "")).getD 0) CVal.zero
      = CVal.num (([["0.7", "0.2"]].getD 0 []).getD 1 "") :=
  (c7_confidence_amended [["a", "b"]] [["a", "b"]] [["0.7", "0.2"]]
      [[CVal.num "0.7", CVal.num "0.2"]] (by decide) rfl).2.2.1 0 1
    (by decide) (by decide)

theorem dictInsert_fresh {α : Type} (k : String) (v : α) :
    ∀ d : List (String × α), (∀ q ∈ d, q.1 ≠ k) → dictInsert d k v = d ++ [(k, v)]
  | [], _ => rfl
  | q :: d, h => by
    unfold dictInsert
    have hne : ¬ (q.1 == k) = true := by
      simpa using h q (List.mem_cons_self _ _)
    rw [if_neg hne, dictInsert_fresh k v d (fun r hr => h r (List.mem_cons_of_mem _ hr))]
    exact (List.cons_append _ _ _).symm

theorem insertAll_fresh {α : Type} :
    ∀ (ps d : List (String × α)),
      (ps.map Prod.fst).Nodup →
      (∀ p ∈ ps, ∀ q ∈ d, q.1 ≠ p.1) →
      insertAll d ps = d ++ ps
  | [], d, _, _ => by simp [insertAll]
  | p :: ps, d, hnd, hf => by
    unfold insertAll
    simp only [List.foldl_cons]
    have h1 : dictInsert d p.1 p.2 = d ++ [p] := by
      rw [dictInsert_fresh p.1 p.2 d (fun q hq => hf p (List.mem_cons_self _ _) q hq)]
    rw [h1]
    have hnd2 : (ps.map Prod.fst).Nodup := (List.nodup_cons.mp (by simpa using hnd)).2
    have hf2 : ∀ r ∈ ps, ∀ q ∈ d ++ [p], q.1 ≠ r.1 := by
      intro r hr q hq
      rcases List.mem_append.mp hq with hq | hq
      · exact hf r (List.mem_cons_of_mem _ hr) q hq
      · have hq2 : q = p := List.mem_singleton.mp hq
        rw [hq2]
        intro he
        have hmm : p.1 ∈ ps.map Prod.fst := he ▸ List.mem_map_of_mem Prod.fst hr
        exact (List.nodup_cons.mp (by simpa using hnd)).1 hmm
    have h2 := insertAll_fresh ps (d ++ [p]) hnd2 hf2
    unfold insertAll at h2
    rw [h2, List.append_assoc]
    rfl

theorem buildLabelDict_eq_zip (classes : List String) (xs : List Int)
    (hnd : classes.Nodup) (hlen : xs.length = classes.length) :
    buildLabelDict classes xs = classes.zip xs := by
  unfold buildLabelDict
  rw [insertAll_fresh (classes.zip xs) [] ?_ (by intro p _ q hq; cases hq)]
  · rfl
  · rw [List.map_fst_zip classes xs (by omega)]
    exact hnd

theorem lookup_zip_nodup :
    ∀ (classes : List String) (xs : List Int) (i : Nat),
      classes.Nodup → i < classes.length → i < xs.length →
      List.lookup (classes.getD i "") (classes.zip xs) = some (xs.getD i 0)
  | [], _, i, _, hi, _ => absurd hi (by simp)
  | _ :: _, [], i, _, _, hi => absurd hi (by simp)
  | c :: cs, x :: xs, 0, _, _, _ => by
    simp [List.lookup]
  | c :: cs, x :: xs, i + 1, hnd, hic, hix => by
    have hkey : cs.getD i "" ∈ cs := by
      rw [List.getD_eq_getElem _ _ (Nat.lt_of_succ_lt_succ hic)]
      exact List.getElem_mem _
    have hne : (cs.getD i "" == c) = false := by
      simp only [beq_eq_false_iff_ne, ne_eq]
      intro he
      exact (List.nodup_cons.mp hnd).1 (he ▸ hkey)
    rw [List.getD_cons_succ, List.getD_cons_succ]
    simp only [List.zip_cons_cons, List.lookup, hne]
    exact lookup_zip_nodup cs xs i (List.nodup_cons.mp hnd).2
      (Nat.lt_of_succ_lt_succ hic) (Nat.lt_of_succ_lt_succ hix)

/-- C6: in a multilabel or multiclass run, a numeric-array metric result
whose length equals the fitted vocabulary size is normalized into a
mapping whose keys are exactly the vocabulary labels in vocabulary order
and whose value at the i-th label is the i-th array element; a
numeric-array result of any other length is emitted as the plain list of
its elements. -/
theorem c6_normalization (rows : List (List String)) (xs : List Int) (evalType : String)
    (hml : evalType = "MultilabelClassification" ∨ evalType = "MulticlassClassification") :
    (xs.length = (mlbClasses rows).length →
        normalizeResult evalType (mlbClasses rows) (EvalResult.ndarray xs)
            = JsonVal.dict ((mlbClasses rows).zip xs) ∧
        ((mlbClasses rows).zip xs).map Prod.fst = mlbClasses rows ∧
        (∀ i, i < (mlbClasses rows).length →
            List.lookup ((mlbClasses rows).getD i "") ((mlbClasses rows).zip xs)
              = some (xs.getD i 0))) ∧
    (xs.length ≠ (mlbClasses rows).length →
        normalizeResult evalType (mlbClasses rows) (EvalResult.ndarray xs)
            = JsonVal.arr xs) := by
  constructor
  · intro hlen
    refine ⟨?_, ?_, ?_⟩
    · simp only [normalizeResult]
      rw [if_pos hml, if_pos hlen,
        buildLabelDict_eq_zip _ _ (mlbClasses_nodup rows) hlen]
    · exact List.map_fst_zip _ _ (by omega)
    · intro i hi
      exact lookup_zip_nodup _ _ i (mlbClasses_nodup rows) hi (by omega)
  · intro hlen
    simp only [normalizeResult]
    rw [if_pos hml, if_neg hlen]

theorem c6_normalization_witness :
    normalizeResult "MulticlassClassification" (mlbClasses [["b", "a"]])
        (EvalResult.ndarray [10, 20])
      = JsonVal.dict ((mlbClasses [["b", "a"]]).zip ([10, 20] : List Int)) ∧
    List.lookup ((mlbClasses [["b", "a"]]).getD 0 "")
        ((mlbClasses [["b", "a"]]).zip ([10, 20] : List Int)) = some (10 : Int) := by
  have h := c6_normalization [["b", "a"]] [10, 20] "MulticlassClassification" (Or.inr rfl)
  exact ⟨(h.1 (by decide)).1, (h.1 (by decide)).2.2 0 (by decide)⟩

/-- C5: whenever some prediction row's confidence value is missing, the
confidence matrix is bound into the argument mapping of no metric: for
every metric descriptor, whatever the evaluation type held in the run
context, the built arguments coincide with those of the same descriptor
with its `prediction_scores` slot cleared, so the scores binding never
happens (all-or-nothing per column). -/
theorem c5_all_or_nothing (metric : Metric) (ctx : RunData)
    (h : hasNans ctx.resultsConfidence = true) :
    buildArgs metric ctx = buildArgs (scrubScores metric) ctx := by
  unfold buildArgs scrubScores
  simp only [h, Bool.not_true]
  cases hs : metric.data_parameters.prediction_scores <;>
    simp [bindSlot, hs]

theorem c5_all_or_nothing_witness :
    buildArgs m5 ctx5 = buildArgs (scrubScores m5) ctx5 :=
  c5_all_or_nothing m5 ctx5 rfl

/-- C8 is a code bug: `args = metric.default_args or` the empty dict
aliases the descriptor's own `default_args` dict whenever it is
non-empty, so binding the data-parameter matrices mutates the descriptor.
At this concrete input the catalog-loaded value `[(average, macro)]`
becomes a three-entry dict holding the bound matrices after one dispatch,
contradicting the claimed immutability. -/
theorem c8_default_args_mutation :
    defaultArgsAfter m8 ctx8 ≠ m8.default_args ∧
    defaultArgsAfter m8 ctx8
      = [("average", Value.lit "macro"), ("y_true", Value.natMatrix [[1]]),
         ("y_pred", Value.natMatrix [[1]])] := by
  exact ⟨by decide, rfl⟩

/-- C2 is a code bug: line 44 tests `eval_input_format not in
"predictions"`, a substring test, so the format `pred`, which differs
from `predictions`, is accepted and the run proceeds all the way to
writing a report, while the spec and the raise message of line 45 admit
only the exact string `predictions`.  A non-substring such as `json`
still raises immediately with no report. -/
theorem c2_format_substring_bug :
    formatSupported "pred" = true ∧
    ("pred" : String) ≠ "predictions" ∧
    performAssessment envSkl
        { evalType := "BinaryClassification", evalInputFormat := "pred",
          truth := [], results := [] } [] = .ok [] ∧
    performAssessment envSkl
        { evalType := "BinaryClassification", evalInputFormat := "json",
          truth := [], results := [] } [] = .error (formatErrorMsg "json") := by
  exact ⟨rfl, by decide, rfl, rfl⟩

/-- C1 is a code bug: `importlib.import_module` raises `ImportError`
instead of returning a falsy value, so the log-and-skip branch of lines
183-187 is dead and an unresolvable package aborts the whole run before
any remaining metric executes and before any report is written.  At this
concrete input the first metric's package is unresolvable: the run
errors, no report is written, and the second metric, which run alone
produces a report, never executes. -/
theorem c1_import_failure_fatal :
    runMetrics envSkl ctx0 [mBadPkg, mGood] = .error "missing_pkg" ∧
    reportWritten (runMetrics envSkl ctx0 [mBadPkg, mGood]) = false ∧
    runMetrics envSkl ctx0 [mGood] = .ok [("accuracy_score", JsonVal.num 1)] := by
  exact ⟨rfl, rfl, rfl⟩

/-- C4 counterexample: the first metric's invocation raises and is
caught, but the second metric's package is unresolvable, so the
`ImportError` escapes the run and no report is written — the claim's
promise that the report is still written after a caught invocation
failure does not hold for every run. -/
theorem c4_counterexample :
    runMetrics envC4 ctx0 [mRaise, mGone] = .error "gone_pkg" ∧
    reportWritten (runMetrics envC4 ctx0 [mRaise, mGone]) = false := by
  exact ⟨rfl, rfl⟩

theorem lookup_dictInsert {α : Type} (k : String) (v : α) :
    ∀ (d : List (String × α)) (p : String),
      List.lookup p (dictInsert d k v) = if p = k then some v else List.lookup p d
  | [], p => by
    by_cases hp : p = k
    · subst hp
      simp [dictInsert, List.lookup]
    · simp [dictInsert, List.lookup, hp, beq_eq_false_iff_ne.mpr hp]
  | (qk, qv) :: d, p => by
    unfold dictInsert
    by_cases hq : qk = k
    · subst hq
      rw [if_pos (by simp)]
      by_cases hp : p = qk
      · subst hp
        simp [List.lookup]
      · have h1 : (p == qk) = false := beq_eq_false_iff_ne.mpr hp
        simp [List.lookup, h1, hp]
    · have hqb : (qk == k) = false := beq_eq_false_iff_ne.mpr hq
      rw [if_neg (by simp [hqb])]
      by_cases hpq : p = qk
      · subst hpq
        have hpk : p ≠ k := hq
        simp [List.lookup, hpk]
      · have hpqb : (p == qk) = false := beq_eq_false_iff_ne.mpr hpq
        simp only [List.lookup, hpqb]
        rw [lookup_dictInsert k v d p]

theorem processMetric_importable (env : Env) (ctx : RunData) (st : LoopState)
    (metric : Metric)
    (him : (env.resolveModule metric.package).isSome = true)
    (hc : cacheConsistent env st.modulesCache) :
    ∃ cache2,
      processMetric env ctx st metric
        = .ok ⟨cache2, applyOutcome ctx st.evalDict metric (metricOutcome env ctx metric)⟩ ∧
      cacheConsistent env cache2 := by
  unfold processMetric metricOutcome applyOutcome
  cases hl : List.lookup metric.package st.modulesCache with
  | some mod =>
    have him2 : env.resolveModule metric.package = some mod := hc _ _ hl
    rw [him2]
    cases hct : mod.methods.contains metric.method with
    | false =>
      have hm : metric.method ∉ mod.methods := by simpa using hct
      exact ⟨st.modulesCache, by simp [hm], hc⟩
    | true =>
      have hm : metric.method ∈ mod.methods := by simpa using hct
      cases hcall : mod.call metric.method (buildArgs metric ctx) with
      | error e => exact ⟨st.modulesCache, by simp [hm, hcall], hc⟩
      | ok r => exact ⟨st.modulesCache, by simp [hm, hcall], hc⟩
  | none =>
    cases him3 : env.resolveModule metric.package with
    | none => rw [him3] at him; simp at him
    | some mod =>
      have hc2 : cacheConsistent env (dictInsert st.modulesCache metric.package mod) := by
        intro p m hm
        rw [lookup_dictInsert] at hm
        by_cases hp : p = metric.package
        · rw [if_pos hp] at hm
          cases hm
          rw [hp]
          exact him3
        · rw [if_neg hp] at hm
          exact hc _ _ hm
      cases hct : mod.methods.contains metric.method with
      | false =>
        have hm : metric.method ∉ mod.methods := by simpa using hct
        exact ⟨_, by simp [hm], hc2⟩
      | true =>
        have hm : metric.method ∈ mod.methods := by simpa using hct
        cases hcall : mod.call metric.method (buildArgs metric ctx) with
        | error e => exact ⟨_, by simp [hm, hcall], hc2⟩
        | ok r => exact ⟨_, by simp [hm, hcall], hc2⟩

theorem runFrom_importable (env : Env) (ctx : RunData) :
    ∀ (metrics : List Metric) (st : LoopState),
      (∀ m ∈ metrics, (env.resolveModule m.package).isSome = true) →
      cacheConsistent env st.modulesCache →
      ∃ cache2,
        runFrom env ctx st metrics
          = .ok ⟨cache2, runSpecDict env ctx metrics st.evalDict⟩ ∧
        cacheConsistent env cache2
  | [], st, _, hc => ⟨st.modulesCache, rfl, hc⟩
  | m :: ms, st, him, hc => by
    obtain ⟨cache2, hpm, hc2⟩ := processMetric_importable env ctx st m
      (him m (List.mem_cons_self _ _)) hc
    obtain ⟨cache3, hrun, hc3⟩ := runFrom_importable env ctx ms
      ⟨cache2, applyOutcome ctx st.evalDict m (metricOutcome env ctx m)⟩
      (fun m2 hm2 => him m2 (List.mem_cons_of_mem _ hm2)) hc2
    refine ⟨cache3, ?_, hc3⟩
    unfold runFrom
    rw [hpm]
    show runFrom env ctx
        ⟨cache2, applyOutcome ctx st.evalDict m (metricOutcome env ctx m)⟩ ms
      = Except.ok ⟨cache3, runSpecDict env ctx (m :: ms) st.evalDict⟩
    rw [hrun]
    rfl

theorem lookup_runSpecDict_keeps (env : Env) (ctx : RunData) (k : String) :
    ∀ (ms : List Metric) (d : List (String × JsonVal)),
      (List.lookup k d).isSome = true →
      (List.lookup k (runSpecDict env ctx ms d)).isSome = true
  | [], _, h => h
  | m :: ms, d, h => by
    refine lookup_runSpecDict_keeps env ctx k ms
      (applyOutcome ctx d m (metricOutcome env ctx m)) ?_
    unfold applyOutcome
    cases metricOutcome env ctx m with
    | none => exact h
    | some r =>
      rw [lookup_dictInsert]
      by_cases hk : k = m.method
      · rw [if_pos hk]; rfl
      · rw [if_neg hk]; exact h

theorem lookup_runSpecDict_adds (env : Env) (ctx : RunData) :
    ∀ (ms : List Metric) (d : List (String × JsonVal)) (m : Metric) (r : EvalResult),
      m ∈ ms → metricOutcome env ctx m = some r →
      (List.lookup m.method (runSpecDict env ctx ms d)).isSome = true
  | [], _, _, _, hm, _ => absurd hm (by simp)
  | m2 :: ms, d, m, r, hm, ho => by
    rcases List.mem_cons.mp hm with rfl | hm2
    · refine lookup_runSpecDict_keeps env ctx m.method ms
        (applyOutcome ctx d m (metricOutcome env ctx m)) ?_
      unfold applyOutcome
      rw [ho, lookup_dictInsert, if_pos rfl]
      rfl
    · exact lookup_runSpecDict_adds env ctx ms
        (applyOutcome ctx d m2 (metricOutcome env ctx m2)) m r hm2 ho

theorem lookup_runSpecDict_absent (env : Env) (ctx : RunData) (k : String) :
    ∀ (ms : List Metric) (d : List (String × JsonVal)),
      (∀ m ∈ ms, m.method ≠ k ∨ metricOutcome env ctx m = none) →
      List.lookup k d = none →
      List.lookup k (runSpecDict env ctx ms d) = none
  | [], _, _, hd => hd
  | m :: ms, d, hms, hd => by
    refine lookup_runSpecDict_absent env ctx k ms
      (applyOutcome ctx d m (metricOutcome env ctx m))
      (fun m2 hm2 => hms m2 (List.mem_cons_of_mem _ hm2)) ?_
    unfold applyOutcome
    rcases hms m (List.mem_cons_self _ _) with hne | hnone
    · cases ho : metricOutcome env ctx m with
      | none => exact hd
      | some r =>
        rw [lookup_dictInsert, if_neg (fun he => hne he.symm)]
        exact hd
    · rw [hnone]
      exact hd

/-- C4 amended: in a run whose ingestion and configuration loading
succeed and in which every selected metric's package is importable, if
the invocation of one metric's callable raises, the exception does not
escape the loop, the run still writes the JSON report of the dict
computed over all the metrics, every metric whose module resolves, whose
method exists and whose call succeeds (`metricOutcome` is `some`) has
its method name present in that report, and the failed metric's key is
absent (method names assumed pairwise distinct so that keys identify
metrics).  The importability proviso is forced by the counterexample: an
unresolvable package elsewhere in the list aborts the run. -/
theorem c4_partial_failure_amended (env : Env) (ctx : RunData) (metrics : List Metric)
    (mf : Metric) (mod : Module)
    (himp : ∀ m ∈ metrics, (env.resolveModule m.package).isSome = true)
    (hmem : mf ∈ metrics)
    (hmod : env.resolveModule mf.package = some mod)
    (hmeth : mod.methods.contains mf.method = true)
    (hraise : mod.call mf.method (buildArgs mf ctx) = .error ())
    (hnodup : (metrics.map Metric.method).Nodup) :
    runMetrics env ctx metrics = .ok (runSpecDict env ctx metrics []) ∧
    (∀ m ∈ metrics, ∀ r, metricOutcome env ctx m = some r →
        (List.lookup m.method (runSpecDict env ctx metrics [])).isSome = true) ∧
    List.lookup mf.method (runSpecDict env ctx metrics []) = none := by
  have hco : cacheConsistent env ([] : List (String × Module)) := by
    intro p m hm
    simp [List.lookup] at hm
  obtain ⟨cache2, hrun, _⟩ := runFrom_importable env ctx metrics ⟨[], []⟩ himp hco
  refine ⟨?_, ?_, ?_⟩
  · unfold runMetrics
    rw [hrun]
  · intro m hm r hr
    exact lookup_runSpecDict_adds env ctx metrics [] m r hm hr
  · refine lookup_runSpecDict_absent env ctx mf.method metrics [] ?_ rfl
    intro m hm
    by_cases he : m = mf
    · subst he
      right
      unfold metricOutcome
      rw [hmod]
      simp [hmeth, hraise]
    · left
      intro hmeq
      exact he (List.inj_on_of_nodup_map hnodup hm hmem hmeq)

theorem c4_partial_failure_witness :
    List.lookup "f_bad" (runSpecDict envW ctx0 [mfW, mgW] []) = none ∧
    (List.lookup "f_good" (runSpecDict envW ctx0 [mfW, mgW] [])).isSome = true ∧
    runMetrics envW ctx0 [mfW, mgW] = .ok (runSpecDict envW ctx0 [mfW, mgW] []) := by
  have h := c4_partial_failure_amended envW ctx0 [mfW, mgW] mfW modRaiseW
    (by decide) (List.mem_cons_self _ _) rfl rfl rfl (by decide)
  exact ⟨h.2.2, h.2.1 mgW (by decide) (EvalResult.npgeneric 5) rfl, h.1⟩

/-- C10: the final result mapping is keyed by the method name alone, not
by the catalog key `package.method`: two metrics with the same method
name in different packages have distinct catalog keys, yet when both
succeed the later metric's normalized value overwrites the earlier one's
and the written report holds a single entry for that method name. -/
theorem c10_method_key_collision (env : Env) (ctx : RunData) (m1 m2 : Metric)
    (mod1 mod2 : Module) (r1 r2 : EvalResult)
    (hpkg : m1.package ≠ m2.package)
    (hmeth : m1.method = m2.method)
    (h1 : env.resolveModule m1.package = some mod1)
    (h2 : env.resolveModule m2.package = some mod2)
    (hc1 : mod1.methods.contains m1.method = true)
    (hc2 : mod2.methods.contains m2.method = true)
    (hr1 : mod1.call m1.method (buildArgs m1 ctx) = .ok r1)
    (hr2 : mod2.call m2.method (buildArgs m2 ctx) = .ok r2) :
    catalogKey m1 ≠ catalogKey m2 ∧
    runMetrics env ctx [m1, m2]
      = .ok [(m2.method, normalizeResult ctx.evalType ctx.labelClasses r2)] := by
  constructor
  · intro he
    apply hpkg
    unfold catalogKey at he
    rw [hmeth] at he
    have hd := congrArg String.data he
    simp only [String.data_append, List.append_assoc] at hd
    exact String.ext (List.append_cancel_right hd)
  · have hp1 : processMetric env ctx ⟨[], []⟩ m1
        = .ok ⟨[(m1.package, mod1)],
               [(m1.method, normalizeResult ctx.evalType ctx.labelClasses r1)]⟩ := by
      unfold processMetric
      rw [show List.lookup m1.package ([] : List (String × Module)) = none from rfl, h1]
      have hm1 : m1.method ∈ mod1.methods := by simpa using hc1
      simp [hm1, hr1, dictInsert]
    have hp2 : processMetric env ctx
        ⟨[(m1.package, mod1)],
         [(m1.method, normalizeResult ctx.evalType ctx.labelClasses r1)]⟩ m2
        = .ok ⟨[(m1.package, mod1), (m2.package, mod2)],
               [(m2.method, normalizeResult ctx.evalType ctx.labelClasses r2)]⟩ := by
      unfold processMetric
      have hlk : List.lookup m2.package [(m1.package, mod1)] = none := by
        simp [List.lookup, beq_eq_false_iff_ne.mpr (Ne.symm hpkg)]
      rw [hlk, h2]
      have hdict : dictInsert
          [(m1.method, normalizeResult ctx.evalType ctx.labelClasses r1)]
          m2.method (normalizeResult ctx.evalType ctx.labelClasses r2)
          = [(m2.method, normalizeResult ctx.evalType ctx.labelClasses r2)] := by
        unfold dictInsert
        rw [if_pos (beq_iff_eq.mpr hmeth)]
      have hcache : dictInsert [(m1.package, mod1)] m2.package mod2
          = [(m1.package, mod1), (m2.package, mod2)] := by
        unfold dictInsert
        rw [if_neg (by simp [beq_eq_false_iff_ne.mpr (fun he => hpkg he)])]
        rfl
      have hm2 : m2.method ∈ mod2.methods := by simpa using hc2
      simp [hm2, hr2, hdict, hcache]
    simp only [runMetrics, runFrom, hp1, hp2]

theorem c10_method_key_witness :
    catalogKey mX ≠ catalogKey mY ∧
    runMetrics envXY ctx0 [mX, mY] = .ok [("score", JsonVal.num 2)] := by
  have h := c10_method_key_collision envXY ctx0 mX mY modX modY
    (EvalResult.npgeneric 1) (EvalResult.npgeneric 2)
    (by decide) rfl rfl rfl rfl rfl rfl rfl
  exact ⟨h.1, h.2⟩

end MistkEval
